import Mathlib

/-!
Verification of the Oracle Cloud (OCI) Object Storage artifact driver
(`workflow/artifacts/oraclecloud/oraclecloud.go`).

The driver is embedded shallowly: the object store, the local filesystem and
the listing pagination of the storage service are explicit values, the driver
operations are pure functions from those values to results together with the
trace of storage calls they perform.  String and path manipulation follows the
Go standard library functions the source uses (`path.Clean`, `path.Join`,
`strings.TrimPrefix`, `strings.HasSuffix`).
-/

namespace OracleCloud

/-- Modelled from the spec: the workflow engine error library used by the
driver produces coded errors; `errors.New(errors.CodeNotFound, msg)` carries a
distinguished not-found code.  The library itself is not part of the sources,
only its use. -/
structure Err where
  code : String
  message : String
deriving DecidableEq

/-- Modelled from the spec: the distinguished not-found code of the workflow
engine error library (`errors.CodeNotFound`). -/
def CodeNotFound : String := "ERR_NOT_FOUND"

/-- Modelled from the spec: the auth mode enum is a closed set of two
supported values; `other` stands for any other configured value (the Go type
is a string type, so arbitrary values are representable). -/
inductive OracleAuthMode where
  | workloadPrincipals
  | instancePrincipals
  | other (value : String)
deriving DecidableEq

/-- Rendering of an auth mode value, as interpolated by the `%s` format verb
in the invalid-auth-mode error.  Modelled from the spec: the concrete strings
of the two supported constants are not in the sources; only the `other` case
is ever rendered by the driver. -/
def OracleAuthMode.asString : OracleAuthMode → String
  | .workloadPrincipals => "workloadPrincipals"
  | .instancePrincipals => "instancePrincipals"
  | .other v => v

/-- Modelled from the spec: the two credential-provider constructors of the
cloud SDK selected by `newAuthProvider`. -/
inductive ConfigProvider where
  | okeWorkloadIdentity
  | instancePrincipal
deriving DecidableEq

/-- The `OracleCloud` part of an artifact reference (`artifact.OracleCloud.Key`). -/
structure OracleCloudArtifactRef where
  Key : String
deriving DecidableEq

/-- The artifact reference fields the driver reads (`Name`, `OracleCloud.Key`). -/
structure Artifact where
  Name : String
  OracleCloud : OracleCloudArtifactRef
deriving DecidableEq

/-- The driver configuration (`ArtifactDriver` in the source). -/
structure ArtifactDriver where
  AuthMode : OracleAuthMode
  BucketName : String
  Region : String
deriving DecidableEq

/-- One page of an object listing returned by the storage service:
the object names of the page and the continuation token
(`ListObjectsResponse.Objects` / `.NextStartWith`). -/
structure ListPage where
  objects : List String
  nextStartWith : Option String
deriving DecidableEq

/-- A storage call performed by the driver, recorded in traces. -/
inductive Call where
  | getNamespace
  | listObjects (ns bucket pre : String) (limit : Option Nat) (startAfter : Option String)
  | getObject (ns bucket name : String)
  | putObject (ns bucket name content : String)
  | deleteObject (ns bucket name : String)
deriving DecidableEq

/-- The environment a driver operation runs against: the bucket contents (an
association list from object name to byte content), the way the service pages
each prefix listing, an injected client-construction failure, the outcome of
namespace resolution and injected per-object deletion failures. -/
structure Env where
  store : List (String × String)
  paging : String → List (Except Err ListPage)
  clientErr : Option Err
  nsResult : Except Err String
  deleteErr : String → Option Err

/-- Equality of fallible results is decidable componentwise. -/
instance {ε α : Type} [DecidableEq ε] [DecidableEq α] : DecidableEq (Except ε α)
  | .error e, .error f =>
    if h : e = f then .isTrue (by rw [h]) else .isFalse (by intro hh; cases hh; exact h rfl)
  | .error _, .ok _ => .isFalse (by intro h; cases h)
  | .ok _, .error _ => .isFalse (by intro h; cases h)
  | .ok a, .ok b =>
    if h : a = b then .isTrue (by rw [h]) else .isFalse (by intro hh; cases hh; exact h rfl)

/-! ### Go string and path semantics -/

/-- `strings.HasPrefix` / `List.isPrefixOf` over the characters of the
strings (byte-wise and character-wise agree on the ASCII names used here). -/
def strIsPrefixOf (p s : String) : Bool :=
  List.isPrefixOf p.toList s.toList

/-- `strings.HasSuffix`. -/
def strHasSuffix (s suff : String) : Bool :=
  List.isSuffixOf suff.toList s.toList

/-- Character count of a string. -/
def strLen (s : String) : Nat := s.toList.length

/-- Drop the first `n` characters of a string. -/
def strDrop (s : String) (n : Nat) : String := String.mk (s.toList.drop n)

/-- `strings.TrimPrefix s pre`: remove `pre` from the front of `s` when it is
a prefix, otherwise return `s` unchanged. -/
def trimPrefix (s pre : String) : String :=
  if strIsPrefixOf pre s then strDrop s (strLen pre) else s

/-- Split a character list on the separator character. -/
def splitSlashAux : List Char → List Char → List (List Char)
  | [], cur => [cur.reverse]
  | c :: rest, cur =>
    if c = '/' then cur.reverse :: splitSlashAux rest [] else splitSlashAux rest (c :: cur)

/-- Does the path start with the separator? -/
def isRooted (s : String) : Bool :=
  match s.toList with
  | c :: _ => c == '/'
  | [] => false

/-- One step of lexical path cleaning: the accumulator holds the kept
segments in reverse order.  Empty and `.` segments vanish; `..` pops the last
kept segment when possible (at the root it vanishes, in a relative path with
nothing left to pop it is kept). -/
def cleanSegs (rooted : Bool) : List String → List String → List String
  | acc, [] => acc
  | acc, c :: rest =>
    if c = "" ∨ c = "." then cleanSegs rooted acc rest
    else if c = ".." then
      match acc with
      | [] => cleanSegs rooted (if rooted then [] else [".."]) rest
      | a :: tl =>
        if a = ".." then cleanSegs rooted (c :: acc) rest
        else cleanSegs rooted tl rest
    else cleanSegs rooted (c :: acc) rest

/-- Join segments with the separator. -/
def joinSegs : List String → String
  | [] => ""
  | [x] => x
  | x :: rest => x ++ "/" ++ joinSegs rest

/-- Go `path.Clean`: lexical cleaning of a slash-separated path. -/
def pathClean (p : String) : String :=
  if p = "" then "."
  else
    let rooted := isRooted p
    let segs := (cleanSegs rooted [] ((splitSlashAux p.toList []).map String.mk)).reverse
    if rooted then "/" ++ joinSegs segs
    else if segs = [] then "." else joinSegs segs

/-- Go `path.Join` restricted to two elements: empty elements are skipped and
the joined result is cleaned; the result is empty only when both elements are
empty. -/
def pathJoin (a b : String) : String :=
  if a = "" ∧ b = "" then ""
  else if a = "" then pathClean b
  else if b = "" then pathClean a
  else pathClean (a ++ "/" ++ b)

/-! ### The object store -/

/-- The object names present in a store. -/
def storeNames (store : List (String × String)) : List String :=
  store.map Prod.fst

/-- All object names of the store carrying the given name start, in store
order: the sequence a complete prefix listing delivers. -/
def fullListing (store : List (String × String)) (pre : String) : List String :=
  (storeNames store).filter (fun n => strIsPrefixOf pre n)

/-- Content of the named object, when present (`GetObject`). -/
def findContent (store : List (String × String)) (name : String) : Option String :=
  (store.find? (fun e => e.1 == name)).map Prod.snd

/-- Apply a sequence of `PutObject` writes to the store: each write replaces
any object of the same name and appends the new entry. -/
def applyPuts : List (String × String) → List (String × String) → List (String × String)
  | store, [] => store
  | store, (n, c) :: rest => applyPuts (store.filter (fun e => !(e.1 == n)) ++ [(n, c)]) rest

/-! ### Client construction and namespace resolution -/

/-- `newAuthProvider`: select the credential-provider constructor by auth
mode; any other value yields the invalid-auth-mode error. -/
def invalidAuthModeErr (m : OracleAuthMode) : Err :=
  ⟨"", "invalid AuthMode: " ++ m.asString ++ " for Oracle Cloud Object Storage"⟩

/-- `newAuthProvider` of the source: the closed two-case switch over the auth
mode with an error default. -/
def newAuthProvider (ad : ArtifactDriver) : Except Err ConfigProvider :=
  match ad.AuthMode with
  | .workloadPrincipals => .ok .okeWorkloadIdentity
  | .instancePrincipals => .ok .instancePrincipal
  | .other v => .error (invalidAuthModeErr (.other v))

/-- `newOracleCloudClient`: build the provider, then the SDK client (whose
construction may fail, injected through the environment), then bind the
region.  The client value is represented by the selected provider. -/
def newOracleCloudClient (ad : ArtifactDriver) (env : Env) : Except Err ConfigProvider :=
  match newAuthProvider ad with
  | .error e => .error e
  | .ok ap =>
    match env.clientErr with
    | some e => .error e
    | none => .ok ap

/-! ### The shared pagination loop -/

/-- The page-follow loop of `listObjectsByPrefix`: call the service with the
current continuation token, accumulate the objects of the page, rebind the
token and stop when it is absent.  The service responses are consumed from
the environment page list; the trace records each listing call with the token
it carried. -/
def runListLoop (ns bucket pre : String) :
    Option String → List (Except Err ListPage) → Except Err (List String) × List Call
  | tok, [] => (.ok [], [Call.listObjects ns bucket pre none tok])
  | tok, pr :: ps =>
    let call := Call.listObjects ns bucket pre none tok
    match pr with
    | .error e => (.error e, [call])
    | .ok p =>
      match p.nextStartWith with
      | none => (.ok p.objects, [call])
      | some t =>
        match runListLoop ns bucket pre (some t) ps with
        | (.error e, cs) => (.error e, call :: cs)
        | (.ok rest, cs) => (.ok (p.objects ++ rest), call :: cs)

/-- `listObjectsByPrefix` of the source: run the pagination loop for this
prefix against the service. -/
def listObjectsByPre (ad : ArtifactDriver) (env : Env) (ns pre : String) :
    Except Err (List String) × List Call :=
  runListLoop ns ad.BucketName pre none (env.paging pre)

/-- Modelled from the spec: a single list-by-prefix call with a result-count
cap returns up to `limit` objects carrying the name start, as used by
`IsDirectory`. -/
def listObjectsOnce (store : List (String × String)) (pre : String) (limit : Nat) : List String :=
  (fullListing store pre).take limit

/-! ### Load -/

/-- `loadFile` iterated over the listed objects: fetch each object
(`getObjectContent`) and record the local write of its content at the local
path obtained by stripping the listing key from the object name
(`downloadObjectContent`); the first error stops the iteration. -/
def loadFiles (env : Env) (bucket ns dirObjPre localPath : String) :
    List String → Except Err (List (String × String)) × List Call
  | [] => (.ok [], [])
  | obj :: rest =>
    let fPath := pathJoin localPath (trimPrefix obj dirObjPre)
    let call := Call.getObject ns bucket obj
    match findContent env.store obj with
    | none => (.error ⟨"ServiceError", "object not found: " ++ obj⟩, [call])
    | some c =>
      match loadFiles env bucket ns dirObjPre localPath rest with
      | (.error e, cs) => (.error e, call :: cs)
      | (.ok ws, cs) => (.ok ((fPath, c) :: ws), call :: cs)

/-- `loadDir` of the source: list every object by the key, fail with the
coded not-found error when the listing is empty, otherwise download each
object into the local path with the key stripped. -/
def loadDir (ad : ArtifactDriver) (env : Env) (ns dirObjPre localPath : String) :
    Except Err (List (String × String)) × List Call :=
  match listObjectsByPre ad env ns dirObjPre with
  | (.error e, cs) => (.error e, cs)
  | (.ok objs, cs) =>
    if objs.length < 1 then
      (.error ⟨CodeNotFound, "no objects with prefix: " ++ dirObjPre
        ++ " found in Oracle Object Storage bucket: " ++ ad.BucketName
        ++ ", namespace: " ++ ns⟩, cs)
    else
      match loadFiles env ad.BucketName ns dirObjPre localPath objs with
      | (r, cs2) => (r, cs ++ cs2)

/-- `Load`: construct the client, resolve the namespace, then `loadDir` with
the artifact key.  The result lists the local file writes performed. -/
def Load (ad : ArtifactDriver) (env : Env) (art : Artifact) (localPath : String) :
    Except Err (List (String × String)) × List Call :=
  match newOracleCloudClient ad env with
  | .error e => (.error e, [])
  | .ok _ =>
    match env.nsResult with
    | .error e => (.error e, [Call.getNamespace])
    | .ok ns =>
      match loadDir ad env ns art.OracleCloud.Key localPath with
      | (r, cs) => (r, Call.getNamespace :: cs)

/-- `OpenStream`: construct the client, resolve the namespace, then fetch the
single object named by the artifact key (`getObjectContent`). -/
def OpenStream (ad : ArtifactDriver) (env : Env) (art : Artifact) :
    Except Err String × List Call :=
  match newOracleCloudClient ad env with
  | .error e => (.error e, [])
  | .ok _ =>
    match env.nsResult with
    | .error e => (.error e, [Call.getNamespace])
    | .ok ns =>
      let call := Call.getObject ns ad.BucketName art.OracleCloud.Key
      match findContent env.store art.OracleCloud.Key with
      | some c => (.ok c, [Call.getNamespace, call])
      | none => (.error ⟨"ServiceError", "object not found: " ++ art.OracleCloud.Key⟩,
          [Call.getNamespace, call])

/-! ### Save -/

/-- The regular files `filepath.Walk` visits under the walk root: every file
whose path is the root itself or lies below it; the walk path of each file is
the stored path. -/
def walkFiles (localFS : List (String × String)) (dirBase : String) : List (String × String) :=
  localFS.filter (fun e => e.1 == dirBase || strIsPrefixOf (dirBase ++ "/") e.1)

/-- `uploadDir` of the source: for every walked file, upload its content at
the object name obtained by joining the artifact key with the walk path of
the file.  Returns the `PutObject` writes in walk order with their trace. -/
def uploadDir (ad : ArtifactDriver) (ns objBase dirBase : String)
    (localFS : List (String × String)) : List (String × String) × List Call :=
  let ups := (walkFiles localFS dirBase).map (fun e => (pathJoin objBase e.1, e.2))
  (ups, ups.map (fun u => Call.putObject ns ad.BucketName u.1 u.2))

/-- `Save`: construct the client, resolve the namespace, then `uploadDir`
from the local path under the artifact key.  The result lists the object
writes performed. -/
def Save (ad : ArtifactDriver) (env : Env) (localFS : List (String × String))
    (localPath : String) (art : Artifact) :
    Except Err (List (String × String)) × List Call :=
  match newOracleCloudClient ad env with
  | .error e => (.error e, [])
  | .ok _ =>
    match env.nsResult with
    | .error e => (.error e, [Call.getNamespace])
    | .ok ns =>
      match uploadDir ad ns art.OracleCloud.Key localPath localFS with
      | (ups, cs) => (.ok ups, Call.getNamespace :: cs)

/-! ### Delete -/

/-- `deleteObj` iterated by `deleteDirObj`: delete each listed object in
order, threading the store; an injected per-object failure is returned at
once, leaving that object and the rest in place. -/
def deleteObjs (env : Env) (bucket ns : String) :
    List String → List (String × String) → Except Err Unit × List Call × List (String × String)
  | [], store => (.ok (), [], store)
  | obj :: rest, store =>
    let call := Call.deleteObject ns bucket obj
    match env.deleteErr obj with
    | some e => (.error e, [call], store)
    | none =>
      let r := deleteObjs env bucket ns rest (store.filter (fun e => !(e.1 == obj)))
      (r.1, call :: r.2.1, r.2.2)

/-- `deleteDirObj` of the source: list every object by the key, then delete
each one individually; the first error stops the iteration. -/
def deleteDirObj (ad : ArtifactDriver) (env : Env) (ns dirObjPre : String) :
    Except Err Unit × List Call × List (String × String) :=
  match listObjectsByPre ad env ns dirObjPre with
  | (.error e, cs) => (.error e, cs, env.store)
  | (.ok objs, cs) =>
    match deleteObjs env ad.BucketName ns objs env.store with
    | (r, cs2, st) => (r, cs ++ cs2, st)

/-- `Delete`: construct the client, resolve the namespace, then
`deleteDirObj` with the artifact key.  The third component is the store left
behind. -/
def Delete (ad : ArtifactDriver) (env : Env) (art : Artifact) :
    Except Err Unit × List Call × List (String × String) :=
  match newOracleCloudClient ad env with
  | .error e => (.error e, [], env.store)
  | .ok _ =>
    match env.nsResult with
    | .error e => (.error e, [Call.getNamespace], env.store)
    | .ok ns =>
      match deleteDirObj ad env ns art.OracleCloud.Key with
      | (r, cs, st) => (r, Call.getNamespace :: cs, st)

/-! ### ListObjects and IsDirectory -/

/-- `ListObjects`: construct the client, resolve the namespace, then the full
pagination loop over the artifact key. -/
def ListObjects (ad : ArtifactDriver) (env : Env) (art : Artifact) :
    Except Err (List String) × List Call :=
  match newOracleCloudClient ad env with
  | .error e => (.error e, [])
  | .ok _ =>
    match env.nsResult with
    | .error e => (.error e, [Call.getNamespace])
    | .ok ns =>
      match listObjectsByPre ad env ns art.OracleCloud.Key with
      | (r, cs) => (r, Call.getNamespace :: cs)

/-- `IsDirectory`: construct the client, resolve the namespace, normalize the
key to end in the separator, issue one capped listing call and report whether
it returned any object. -/
def IsDirectory (ad : ArtifactDriver) (env : Env) (art : Artifact) :
    Except Err Bool × List Call :=
  match newOracleCloudClient ad env with
  | .error e => (.error e, [])
  | .ok _ =>
    match env.nsResult with
    | .error e => (.error e, [Call.getNamespace])
    | .ok ns =>
      let objPre := if strHasSuffix art.OracleCloud.Key "/" then art.OracleCloud.Key
        else art.OracleCloud.Key ++ "/"
      let objs := listObjectsOnce env.store objPre 1
      (.ok (decide (objs.length > 0)),
        [Call.getNamespace, Call.listObjects ns ad.BucketName objPre (some 1) none])

/-! ### The load policy the spec describes -/

/-- Modelled from the spec: the file-vs-directory disambiguation policy the
spec attributes to `Load` — first a direct fetch of the object named by the
key joined with the artifact name, written to the destination joined with the
name; on a not-found outcome (the object is absent) a fallback listing of
that same name taken as a key, each match downloaded with it stripped; a
not-found error when the fallback matches nothing.  Stated only to be
compared with `Load` as the source defines it. -/
def LoadSpecPolicy (ad : ArtifactDriver) (env : Env) (art : Artifact) (localPath : String) :
    Except Err (List (String × String)) :=
  match newOracleCloudClient ad env with
  | .error e => .error e
  | .ok _ =>
    match env.nsResult with
    | .error e => .error e
    | .ok ns =>
      let objPath := pathJoin art.OracleCloud.Key art.Name
      match findContent env.store objPath with
      | some c => .ok [(pathJoin localPath art.Name, c)]
      | none =>
        let objs := fullListing env.store objPath
        if objs = [] then
          .error ⟨CodeNotFound, "no objects with prefix: " ++ objPath
            ++ " found in Oracle Object Storage bucket: " ++ ad.BucketName
            ++ ", namespace: " ++ ns⟩
        else
          .ok (objs.map fun o => (pathJoin localPath (trimPrefix o objPath),
            (findContent env.store o).getD ""))

/-! ### Valid paginations -/

/-- A page-response list validly paginates a full listing when its pages all
succeed, their object lists concatenate to the full listing, every page but
the last carries a continuation token and the last carries none. -/
inductive PagesValid : List (Except Err ListPage) → List String → Prop
  | last (objs : List String) : PagesValid [Except.ok ⟨objs, none⟩] objs
  | cons (objs : List String) (t : String) (ps : List (Except Err ListPage))
      (rest : List String) (h : PagesValid ps rest) :
      PagesValid (Except.ok ⟨objs, some t⟩ :: ps) (objs ++ rest)

/-! ### Concrete environments used by witnesses and counterexamples -/

/-- A one-page pagination of every prefix of a store: the service answers
each listing with a single final page. -/
def onePagePaging (store : List (String × String)) : String → List (Except Err ListPage) :=
  fun p => [Except.ok ⟨fullListing store p, none⟩]

/-- A healthy environment over a store: client construction succeeds, the
namespace resolves to `ns1`, listings are answered in one page and no
deletion fails. -/
def healthyEnv (store : List (String × String)) : Env :=
  ⟨store, onePagePaging store, none, .ok "ns1", fun _ => none⟩

/-- The driver configuration used by the concrete checks. -/
def wDriver : ArtifactDriver := ⟨.workloadPrincipals, "bkt", "us-ashburn-1"⟩

/-- Store of the direct-fetch counterexample: one object below the artifact
key, none at the key joined with the artifact name. -/
def cStore : List (String × String) := [("k/other", "v")]

/-- Artifact of the direct-fetch counterexample. -/
def cArt : Artifact := ⟨"n", ⟨"k"⟩⟩

/-- Store used by several witnesses: two objects below the key `runs/42`
and one unrelated object. -/
def wStore : List (String × String) :=
  [("runs/42/a.txt", "A"), ("runs/42/sub/c.txt", "C"), ("other/b", "B")]

/-- Artifact used by several witnesses. -/
def wArt : Artifact := ⟨"x", ⟨"runs/42"⟩⟩

/-! ### Lemmas about the pagination loop, fetching and downloading -/

/-- Under a valid pagination the loop returns exactly the full listing, and
its first service call carries the token it was started with. -/
lemma runListLoop_valid (ns bucket pre : String) {ps : List (Except Err ListPage)}
    {full : List String} (h : PagesValid ps full) (tok : Option String) :
    ∃ cs, runListLoop ns bucket pre tok ps =
      (.ok full, Call.listObjects ns bucket pre none tok :: cs) := by
  induction h generalizing tok with
  | last objs => exact ⟨[], rfl⟩
  | cons objs t ps rest _ ih =>
    obtain ⟨cs, hcs⟩ := ih (some t)
    exact ⟨Call.listObjects ns bucket pre none (some t) :: cs, by simp [runListLoop, hcs]⟩

/-- Under a valid pagination `listObjectsByPrefix` returns the full listing;
its first call carries no continuation token. -/
lemma listObjectsByPre_valid (ad : ArtifactDriver) (env : Env) (ns pre : String)
    (h : PagesValid (env.paging pre) (fullListing env.store pre)) :
    ∃ cs, listObjectsByPre ad env ns pre =
      (.ok (fullListing env.store pre), Call.listObjects ns ad.BucketName pre none none :: cs) :=
  runListLoop_valid ns ad.BucketName pre h none

/-- Every name present in the store has a fetchable content. -/
lemma findContent_of_mem (store : List (String × String)) (o : String)
    (h : o ∈ storeNames store) : ∃ c, findContent store o = some c := by
  induction store with
  | nil => cases h
  | cons hd tl ih =>
    simp only [storeNames, List.map_cons] at h
    rcases List.mem_cons.mp h with h1 | h2
    · subst h1
      exact ⟨hd.2, by simp [findContent, List.find?_cons]⟩
    · by_cases he : hd.1 = o
      · exact ⟨hd.2, by simp [findContent, List.find?_cons, he]⟩
      · have hne : (hd.1 == o) = false := beq_eq_false_iff_ne.mpr he
        obtain ⟨c, hc⟩ := ih h2
        refine ⟨c, ?_⟩
        simpa [findContent, List.find?_cons, hne] using hc

/-- When every listed object is present in the store, downloading them all
succeeds and writes each content at the prefix-stripped local path. -/
lemma loadFiles_ok (env : Env) (bucket ns dirObjPre localPath : String)
    (objs : List String) (h : ∀ o ∈ objs, o ∈ storeNames env.store) :
    ∃ cs, loadFiles env bucket ns dirObjPre localPath objs =
      (.ok (objs.map fun o => (pathJoin localPath (trimPrefix o dirObjPre),
        (findContent env.store o).getD "")), cs) := by
  induction objs with
  | nil => exact ⟨[], rfl⟩
  | cons o rest ih =>
    obtain ⟨c, hc⟩ := findContent_of_mem _ o (h o (List.mem_cons_self _ _))
    obtain ⟨cs, hcs⟩ := ih (fun x hx => h x (List.mem_cons_of_mem _ hx))
    refine ⟨Call.getObject ns bucket o :: cs, ?_⟩
    simp [loadFiles, hc, hcs]

/-! ### Claim theorems -/

/-- C4: when no object carries the artifact key as a name start, `Load`
fails with the distinguished not-found error whose message names the key,
the bucket and the namespace, and when at least one matching object exists
(so that every download succeeds) `Load` returns successfully. -/
theorem load_not_found (ad : ArtifactDriver) (env : Env) (art : Artifact) (lp : String)
    (p : ConfigProvider) (hc : newOracleCloudClient ad env = .ok p)
    (ns : String) (hns : env.nsResult = .ok ns)
    (hpg : PagesValid (env.paging art.OracleCloud.Key)
      (fullListing env.store art.OracleCloud.Key)) :
    (fullListing env.store art.OracleCloud.Key = [] →
      (Load ad env art lp).1 = .error ⟨CodeNotFound,
        "no objects with prefix: " ++ art.OracleCloud.Key
          ++ " found in Oracle Object Storage bucket: " ++ ad.BucketName
          ++ ", namespace: " ++ ns⟩)
    ∧ (fullListing env.store art.OracleCloud.Key ≠ [] →
        ∃ ws, (Load ad env art lp).1 = .ok ws) := by
  obtain ⟨cs, hlist⟩ := listObjectsByPre_valid ad env ns art.OracleCloud.Key hpg
  constructor
  · intro hempty
    simp [Load, hc, hns, loadDir, hlist, hempty]
  · intro hne
    have hlen : ¬ (fullListing env.store art.OracleCloud.Key).length < 1 := by
      rcases hfl : fullListing env.store art.OracleCloud.Key with _ | ⟨a, l⟩
      · exact absurd hfl hne
      · simp
    obtain ⟨cs2, hlf⟩ := loadFiles_ok env ad.BucketName ns art.OracleCloud.Key lp
      (fullListing env.store art.OracleCloud.Key)
      (fun o ho => List.mem_of_mem_filter ho)
    refine ⟨(fullListing env.store art.OracleCloud.Key).map
      (fun o => (pathJoin lp (trimPrefix o art.OracleCloud.Key),
        (findContent env.store o).getD "")), ?_⟩
    simp [Load, hc, hns, loadDir, hlist, hlen, hlf]

/-- C4 witness: with one stored object and a key matching nothing, `Load`
fails with the not-found error naming the key, the bucket and the
namespace. -/
theorem load_not_found_witness :
    (Load wDriver (healthyEnv cStore) ⟨"x", ⟨"missing/"⟩⟩ "/tmp/x").1 =
      .error ⟨CodeNotFound, "no objects with prefix: " ++ "missing/"
        ++ " found in Oracle Object Storage bucket: " ++ "bkt" ++ ", namespace: " ++ "ns1"⟩ :=
  (load_not_found wDriver (healthyEnv cStore) ⟨"x", ⟨"missing/"⟩⟩ "/tmp/x"
    .okeWorkloadIdentity rfl "ns1" rfl (PagesValid.last _)).1 (by decide)

/-- Trimming a string by itself leaves the empty string. -/
lemma trimPrefix_self (s : String) : trimPrefix s s = "" := by
  have h : strIsPrefixOf s s = true :=
    List.isPrefixOf_iff_prefix.mpr (List.prefix_refl _)
  simp only [trimPrefix, h, if_true, strDrop, strLen, List.drop_length]

/-- Joining a clean non-empty path with the empty string returns the path. -/
lemma pathJoin_empty_right (lp : String) (hclean : pathClean lp = lp) (hlp : lp ≠ "") :
    pathJoin lp "" = lp := by
  simp [pathJoin, hlp, hclean]

/-- C1 (amended): `Load` performs no direct single-object fetch: it ignores
the artifact name, its first storage call after namespace resolution is a
listing of all objects whose names start with the artifact key, and it
downloads each listed object into the local target with the key stripped
(failing with the not-found error when the listing is empty, by
`load_not_found`). -/
theorem load_list_only (ad : ArtifactDriver) (env : Env) (art : Artifact) (lp : String)
    (p : ConfigProvider) (hc : newOracleCloudClient ad env = .ok p)
    (ns : String) (hns : env.nsResult = .ok ns)
    (hpg : PagesValid (env.paging art.OracleCloud.Key)
      (fullListing env.store art.OracleCloud.Key)) :
    (∀ n2, Load ad env ⟨n2, art.OracleCloud⟩ lp = Load ad env art lp)
    ∧ (fullListing env.store art.OracleCloud.Key ≠ [] →
        (Load ad env art lp).1 = .ok ((fullListing env.store art.OracleCloud.Key).map
          (fun o => (pathJoin lp (trimPrefix o art.OracleCloud.Key),
            (findContent env.store o).getD ""))))
    ∧ (∃ rest, (Load ad env art lp).2 =
        Call.getNamespace ::
          Call.listObjects ns ad.BucketName art.OracleCloud.Key none none :: rest) := by
  obtain ⟨cs, hlist⟩ := listObjectsByPre_valid ad env ns art.OracleCloud.Key hpg
  refine ⟨fun n2 => rfl, ?_, ?_⟩
  · intro hne
    have hlen : ¬ (fullListing env.store art.OracleCloud.Key).length < 1 := by
      rcases hfl : fullListing env.store art.OracleCloud.Key with _ | ⟨a, l⟩
      · exact absurd hfl hne
      · simp
    obtain ⟨cs2, hlf⟩ := loadFiles_ok env ad.BucketName ns art.OracleCloud.Key lp
      (fullListing env.store art.OracleCloud.Key)
      (fun o ho => List.mem_of_mem_filter ho)
    simp [Load, hc, hns, loadDir, hlist, hlen, hlf]
  · by_cases hempty : fullListing env.store art.OracleCloud.Key = []
    · exact ⟨cs, by simp [Load, hc, hns, loadDir, hlist, hempty]⟩
    · have hlen : ¬ (fullListing env.store art.OracleCloud.Key).length < 1 := by
        rcases hfl : fullListing env.store art.OracleCloud.Key with _ | ⟨a, l⟩
        · exact absurd hfl hempty
        · simp
      obtain ⟨cs2, hlf⟩ := loadFiles_ok env ad.BucketName ns art.OracleCloud.Key lp
        (fullListing env.store art.OracleCloud.Key)
        (fun o ho => List.mem_of_mem_filter ho)
      exact ⟨cs ++ cs2, by simp [Load, hc, hns, loadDir, hlist, hlen, hlf]⟩

/-- C1 witness: on a store holding only `k/other`, `Load` of key `k`
downloads that object, and the result does not depend on the artifact
name. -/
theorem load_list_only_witness :
    (Load wDriver (healthyEnv cStore) cArt "/tmp/x").1 = .ok [("/tmp/x/other", "v")]
    ∧ Load wDriver (healthyEnv cStore) ⟨"zzz", cArt.OracleCloud⟩ "/tmp/x" =
        Load wDriver (healthyEnv cStore) cArt "/tmp/x" := by
  have h := load_list_only wDriver (healthyEnv cStore) cArt "/tmp/x"
    .okeWorkloadIdentity rfl "ns1" rfl (PagesValid.last _)
  refine ⟨?_, h.1 "zzz"⟩
  have h2 := h.2.1 (by decide)
  rw [h2]
  decide

/-- C1 counterexample: on a store holding only `k/other`, and the artifact
with key `k` and name `n`, the source `Load` succeeds and downloads `k/other`
without ever fetching the object named by `key/name`, while the policy the
claim describes (`LoadSpecPolicy`) fails with a not-found error: the claimed
direct-fetch-then-fallback behavior is not the behavior of `Load`. -/
theorem load_direct_fetch_counterexample :
    (Load wDriver (healthyEnv cStore) cArt "/tmp/x").1 = .ok [("/tmp/x/other", "v")]
    ∧ LoadSpecPolicy wDriver (healthyEnv cStore) cArt "/tmp/x" =
        .error ⟨CodeNotFound,
          "no objects with prefix: k/n found in Oracle Object Storage bucket: bkt, namespace: ns1"⟩
    ∧ (Load wDriver (healthyEnv cStore) cArt "/tmp/x").1 ≠
        LoadSpecPolicy wDriver (healthyEnv cStore) cArt "/tmp/x"
    ∧ Call.getObject "ns1" "bkt" (pathJoin "k" "n") ∉
        (Load wDriver (healthyEnv cStore) cArt "/tmp/x").2 :=
  ⟨by decide, by decide, by decide, by decide⟩

/-- C3: under any valid pagination of the service, `ListObjects` returns
exactly the names of the stored objects that carry the artifact key as a
name start, in store order, with no omissions; it has no duplicates whenever
the store names have none. -/
theorem listObjects_complete (ad : ArtifactDriver) (env : Env) (art : Artifact)
    (p : ConfigProvider) (hc : newOracleCloudClient ad env = .ok p)
    (ns : String) (hns : env.nsResult = .ok ns)
    (hpg : PagesValid (env.paging art.OracleCloud.Key)
      (fullListing env.store art.OracleCloud.Key)) :
    ∃ l, (ListObjects ad env art).1 = .ok l
      ∧ l = (storeNames env.store).filter (fun n => strIsPrefixOf art.OracleCloud.Key n)
      ∧ ((storeNames env.store).Nodup → l.Nodup) := by
  obtain ⟨cs, hlist⟩ := listObjectsByPre_valid ad env ns art.OracleCloud.Key hpg
  refine ⟨fullListing env.store art.OracleCloud.Key, ?_, rfl, fun hnd => hnd.filter _⟩
  simp [ListObjects, hc, hns, hlist]

/-- C3 witness: a concrete three-object store, listed in one page, yields
exactly its two matching names. -/
theorem listObjects_complete_witness :
    ∃ l, (ListObjects wDriver (healthyEnv wStore) wArt).1 = .ok l
      ∧ l = (storeNames wStore).filter (fun n => strIsPrefixOf "runs/42" n)
      ∧ ((storeNames wStore).Nodup → l.Nodup) :=
  listObjects_complete wDriver (healthyEnv wStore) wArt
    .okeWorkloadIdentity rfl "ns1" rfl (PagesValid.last _)

/-- C10: for a key matching no stored object, `ListObjects` succeeds with
the empty sequence; an empty listing is not turned into an error. -/
theorem listObjects_empty_ok (ad : ArtifactDriver) (env : Env) (art : Artifact)
    (p : ConfigProvider) (hc : newOracleCloudClient ad env = .ok p)
    (ns : String) (hns : env.nsResult = .ok ns)
    (hpg : PagesValid (env.paging art.OracleCloud.Key)
      (fullListing env.store art.OracleCloud.Key))
    (hempty : fullListing env.store art.OracleCloud.Key = []) :
    (ListObjects ad env art).1 = .ok [] := by
  obtain ⟨cs, hlist⟩ := listObjectsByPre_valid ad env ns art.OracleCloud.Key hpg
  simp [ListObjects, hc, hns, hlist, hempty]

/-- C10 witness: listing a key matching nothing on a non-empty store returns
the empty sequence without an error. -/
theorem listObjects_empty_ok_witness :
    (ListObjects wDriver (healthyEnv wStore) ⟨"x", ⟨"missing/"⟩⟩).1 = .ok [] :=
  listObjects_empty_ok wDriver (healthyEnv wStore) ⟨"x", ⟨"missing/"⟩⟩
    .okeWorkloadIdentity rfl "ns1" rfl (PagesValid.last _) (by decide)

/-- C5: `IsDirectory` answers true exactly when some stored object name
starts with the artifact key normalized to end in the separator (appended
only when absent), and false exactly when no such object exists. -/
theorem isDirectory_iff (ad : ArtifactDriver) (env : Env) (art : Artifact)
    (p : ConfigProvider) (hc : newOracleCloudClient ad env = .ok p)
    (ns : String) (hns : env.nsResult = .ok ns) :
    ((IsDirectory ad env art).1 = .ok true ↔
      ∃ o ∈ storeNames env.store,
        strIsPrefixOf (if strHasSuffix art.OracleCloud.Key "/" then art.OracleCloud.Key
          else art.OracleCloud.Key ++ "/") o = true)
    ∧ ((IsDirectory ad env art).1 = .ok false ↔
      ¬ ∃ o ∈ storeNames env.store,
        strIsPrefixOf (if strHasSuffix art.OracleCloud.Key "/" then art.OracleCloud.Key
          else art.OracleCloud.Key ++ "/") o = true) := by
  set K2 := if strHasSuffix art.OracleCloud.Key "/" then art.OracleCloud.Key
    else art.OracleCloud.Key ++ "/" with hK2
  have hbase : (IsDirectory ad env art).1 =
      .ok (decide ((listObjectsOnce env.store K2 1).length > 0)) := by
    simp [IsDirectory, hc, hns, hK2]
  have key : (fullListing env.store K2 ≠ []) ↔
      (∃ o ∈ storeNames env.store, strIsPrefixOf K2 o = true) := by
    constructor
    · intro h
      rcases List.exists_mem_of_ne_nil _ h with ⟨o, ho⟩
      rcases List.mem_filter.mp ho with ⟨h1, h2⟩
      exact ⟨o, h1, h2⟩
    · rintro ⟨o, h1, h2⟩ hnil
      have hmem : o ∈ fullListing env.store K2 := List.mem_filter.mpr ⟨h1, h2⟩
      rw [hnil] at hmem
      cases hmem
  have htake : ((listObjectsOnce env.store K2 1).length > 0) ↔
      fullListing env.store K2 ≠ [] := by
    unfold listObjectsOnce
    cases fullListing env.store K2 <;> simp
  rw [hbase]
  constructor
  · simp only [Except.ok.injEq, decide_eq_true_eq]
    exact htake.trans key
  · simp only [Except.ok.injEq, decide_eq_false_iff_not]
    exact not_congr (htake.trans key)

/-- C5 witness: on the concrete store, key `runs/42` (no trailing separator)
is a directory and key `runs/421` is not. -/
theorem isDirectory_iff_witness :
    (IsDirectory wDriver (healthyEnv wStore) wArt).1 = .ok true
    ∧ (IsDirectory wDriver (healthyEnv wStore) ⟨"x", ⟨"runs/421"⟩⟩).1 = .ok false :=
  ⟨(isDirectory_iff wDriver (healthyEnv wStore) wArt
      .okeWorkloadIdentity rfl "ns1" rfl).1.mpr ⟨"runs/42/a.txt", by decide, by decide⟩,
   (isDirectory_iff wDriver (healthyEnv wStore) ⟨"x", ⟨"runs/421"⟩⟩
      .okeWorkloadIdentity rfl "ns1" rfl).2.mpr (by decide)⟩

/-- C9: when the artifact key is exactly the name of the unique matching
stored object, stripping the key from the object name leaves the empty
string, joining the (clean, non-empty) destination path with the empty
string yields the destination path, and `Load` writes the object content at
the destination path itself. -/
theorem load_single_exact_key (ad : ArtifactDriver) (env : Env) (art : Artifact) (lp : String)
    (p : ConfigProvider) (hc : newOracleCloudClient ad env = .ok p)
    (ns : String) (hns : env.nsResult = .ok ns)
    (hpg : PagesValid (env.paging art.OracleCloud.Key)
      (fullListing env.store art.OracleCloud.Key))
    (hone : fullListing env.store art.OracleCloud.Key = [art.OracleCloud.Key])
    (c : String) (hcont : findContent env.store art.OracleCloud.Key = some c)
    (hclean : pathClean lp = lp) (hlp : lp ≠ "") :
    trimPrefix art.OracleCloud.Key art.OracleCloud.Key = ""
    ∧ pathJoin lp "" = lp
    ∧ (Load ad env art lp).1 = .ok [(lp, c)] := by
  obtain ⟨cs, hlist⟩ := listObjectsByPre_valid ad env ns art.OracleCloud.Key hpg
  rw [hone] at hlist
  refine ⟨trimPrefix_self _, pathJoin_empty_right lp hclean hlp, ?_⟩
  have hlf : loadFiles env ad.BucketName ns art.OracleCloud.Key lp [art.OracleCloud.Key] =
      (.ok [(pathJoin lp (trimPrefix art.OracleCloud.Key art.OracleCloud.Key), c)],
       [Call.getObject ns ad.BucketName art.OracleCloud.Key]) := by
    simp [loadFiles, hcont]
  simp [Load, hc, hns, loadDir, hlist, hlf, trimPrefix_self,
    pathJoin_empty_right lp hclean hlp]

/-- C9 witness: a single object stored at `runs/42/output.txt`, loaded with
that exact key, is written to `/tmp/x` itself, not below it. -/
theorem load_single_exact_key_witness :
    (Load wDriver (healthyEnv [("runs/42/output.txt", "hello")])
      ⟨"output.txt", ⟨"runs/42/output.txt"⟩⟩ "/tmp/x").1 = .ok [("/tmp/x", "hello")] :=
  (load_single_exact_key wDriver (healthyEnv [("runs/42/output.txt", "hello")])
    ⟨"output.txt", ⟨"runs/42/output.txt"⟩⟩ "/tmp/x"
    .okeWorkloadIdentity rfl "ns1" rfl (PagesValid.last _)
    (by decide) "hello" (by decide) (by decide) (by decide)).2.2

/-- Filtering a store by a predicate on names filters its name list. -/
lemma storeNames_filter (store : List (String × String)) (p : String → Bool) :
    storeNames (store.filter (fun e => p e.1)) = (storeNames store).filter p := by
  induction store with
  | nil => rfl
  | cons hd tl ih =>
    by_cases hp : p hd.1
    · simp [storeNames, List.filter_cons, hp] at ih ⊢
      exact ih
    · simp [storeNames, List.filter_cons, hp] at ih ⊢
      exact ih

/-- Deleting a list of objects that all succeed removes from the store
exactly the entries whose names are listed. -/
lemma deleteObjs_all_ok (env : Env) (bucket ns : String) (objs : List String)
    (h : ∀ o ∈ objs, env.deleteErr o = none) (store : List (String × String)) :
    ∃ cs, deleteObjs env bucket ns objs store =
      (.ok (), cs, store.filter (fun s => !(objs.contains s.1))) := by
  induction objs generalizing store with
  | nil =>
    refine ⟨[], ?_⟩
    simp [deleteObjs, List.filter_eq_self.mpr (fun a _ => rfl)]
  | cons o rest ih =>
    have hnone : env.deleteErr o = none := h o (List.mem_cons_self _ _)
    obtain ⟨cs, hcs⟩ := ih (fun x hx => h x (List.mem_cons_of_mem _ hx))
      (store.filter (fun e => !(e.1 == o)))
    refine ⟨Call.deleteObject ns bucket o :: cs, ?_⟩
    simp only [deleteObjs, hnone, hcs, Prod.mk.injEq]
    refine ⟨trivial, trivial, ?_⟩
    rw [List.filter_filter]
    apply List.filter_congr
    intro a _
    by_cases hao : a.1 = o
    · simp [hao, List.contains_cons, Bool.not_or]
    · simp [hao, List.contains_cons, Bool.not_or]

/-- Deleting a list of objects whose head failure occurs after an initial
all-successful segment returns that failure and removes from the store
exactly the entries of the initial segment. -/
lemma deleteObjs_err (env : Env) (bucket ns : String) (l1 : List String) (o : String)
    (l2 : List String) (e : Err) (h1 : ∀ x ∈ l1, env.deleteErr x = none)
    (ho : env.deleteErr o = some e) (store : List (String × String)) :
    ∃ cs, deleteObjs env bucket ns (l1 ++ o :: l2) store =
      (.error e, cs, store.filter (fun s => !(l1.contains s.1))) := by
  induction l1 generalizing store with
  | nil =>
    refine ⟨[Call.deleteObject ns bucket o], ?_⟩
    simp [deleteObjs, ho, List.filter_eq_self.mpr (fun a _ => rfl)]
  | cons x rest ih =>
    have hx : env.deleteErr x = none := h1 x (List.mem_cons_self _ _)
    obtain ⟨cs, hcs⟩ := ih (fun y hy => h1 y (List.mem_cons_of_mem _ hy))
      (store.filter (fun e2 => !(e2.1 == x)))
    refine ⟨Call.deleteObject ns bucket x :: cs, ?_⟩
    rw [List.cons_append]
    simp only [deleteObjs, hx, hcs, Prod.mk.injEq]
    refine ⟨trivial, trivial, ?_⟩
    rw [List.filter_filter]
    apply List.filter_congr
    intro a _
    by_cases hax : a.1 = x
    · simp [hax, List.contains_cons, Bool.not_or]
    · simp [hax, List.contains_cons, Bool.not_or]

/-- After removing every listed name from the store, nothing with the listed
name start remains. -/
lemma fullListing_after_delete (store : List (String × String)) (K : String) :
    fullListing (store.filter (fun s => !((fullListing store K).contains s.1))) K = [] := by
  apply List.eq_nil_iff_forall_not_mem.mpr
  intro a ha
  rcases List.mem_filter.mp ha with ⟨ha1, hpre⟩
  rw [storeNames_filter store (fun n => !((fullListing store K).contains n))] at ha1
  rcases List.mem_filter.mp ha1 with ⟨hmem, hnc⟩
  have hfull : a ∈ fullListing store K := List.mem_filter.mpr ⟨hmem, hpre⟩
  simp [hfull] at hnc

/-- C6: `Delete` lists every object under the artifact key and deletes each
in turn: when every deletion succeeds no object with the key as name start
remains; when deletion of an object fails after an initial segment has been
deleted, that error is returned, exactly the initial segment is gone and
everything else remains. -/
theorem delete_semantics (ad : ArtifactDriver) (env : Env) (art : Artifact)
    (p : ConfigProvider) (hc : newOracleCloudClient ad env = .ok p)
    (ns : String) (hns : env.nsResult = .ok ns)
    (hpg : PagesValid (env.paging art.OracleCloud.Key)
      (fullListing env.store art.OracleCloud.Key)) :
    ((∀ o ∈ fullListing env.store art.OracleCloud.Key, env.deleteErr o = none) →
       (Delete ad env art).1 = .ok ()
       ∧ fullListing (Delete ad env art).2.2 art.OracleCloud.Key = [])
    ∧ (∀ l1 o l2 e, fullListing env.store art.OracleCloud.Key = l1 ++ o :: l2 →
        (∀ x ∈ l1, env.deleteErr x = none) → env.deleteErr o = some e →
        (Delete ad env art).1 = .error e
        ∧ (Delete ad env art).2.2 = env.store.filter (fun s => !(l1.contains s.1))) := by
  obtain ⟨cs, hlist⟩ := listObjectsByPre_valid ad env ns art.OracleCloud.Key hpg
  constructor
  · intro h
    obtain ⟨cs2, hdel⟩ := deleteObjs_all_ok env ad.BucketName ns
      (fullListing env.store art.OracleCloud.Key) h env.store
    constructor
    · simp [Delete, hc, hns, deleteDirObj, hlist, hdel]
    · have hst : (Delete ad env art).2.2 =
          env.store.filter (fun s => !((fullListing env.store art.OracleCloud.Key).contains s.1)) := by
        simp [Delete, hc, hns, deleteDirObj, hlist, hdel]
      rw [hst]
      exact fullListing_after_delete env.store art.OracleCloud.Key
  · intro l1 o l2 e hdecomp h1 ho
    obtain ⟨cs2, hdel⟩ := deleteObjs_err env ad.BucketName ns l1 o l2 e h1 ho env.store
    rw [hdecomp] at hlist
    constructor
    · simp [Delete, hc, hns, deleteDirObj, hlist, hdel]
    · simp [Delete, hc, hns, deleteDirObj, hlist, hdel]

/-- C6 witness: with three objects under the key and an injected failure on
the second, `Delete` returns that failure, the first object is gone, the
second and third remain; with no injected failure, nothing under the key
remains. -/
theorem delete_semantics_witness :
    ((Delete wDriver ⟨[("p/a", "1"), ("p/b", "2"), ("p/c", "3")],
        onePagePaging [("p/a", "1"), ("p/b", "2"), ("p/c", "3")], none, .ok "ns1",
        fun o => if o == "p/b" then some ⟨"E500", "boom"⟩ else none⟩ ⟨"x", ⟨"p"⟩⟩).1 =
      .error ⟨"E500", "boom"⟩
    ∧ (Delete wDriver ⟨[("p/a", "1"), ("p/b", "2"), ("p/c", "3")],
        onePagePaging [("p/a", "1"), ("p/b", "2"), ("p/c", "3")], none, .ok "ns1",
        fun o => if o == "p/b" then some ⟨"E500", "boom"⟩ else none⟩ ⟨"x", ⟨"p"⟩⟩).2.2 =
      [("p/b", "2"), ("p/c", "3")])
    ∧ fullListing (Delete wDriver (healthyEnv [("p/a", "1"), ("p/b", "2"), ("p/c", "3")])
        ⟨"x", ⟨"p"⟩⟩).2.2 "p" = [] := by
  have hb := (delete_semantics wDriver ⟨[("p/a", "1"), ("p/b", "2"), ("p/c", "3")],
      onePagePaging [("p/a", "1"), ("p/b", "2"), ("p/c", "3")], none, .ok "ns1",
      fun o => if o == "p/b" then some ⟨"E500", "boom"⟩ else none⟩ ⟨"x", ⟨"p"⟩⟩
      .okeWorkloadIdentity rfl "ns1" rfl (PagesValid.last _)).2
      ["p/a"] "p/b" ["p/c"] ⟨"E500", "boom"⟩ (by decide) (by decide) (by decide)
  have ha := (delete_semantics wDriver (healthyEnv [("p/a", "1"), ("p/b", "2"), ("p/c", "3")])
      ⟨"x", ⟨"p"⟩⟩ .okeWorkloadIdentity rfl "ns1" rfl (PagesValid.last _)).1
      (fun o _ => rfl)
  refine ⟨⟨hb.1, ?_⟩, ha.2⟩
  rw [hb.2]
  decide

/-- C7: every public operation run with an auth mode outside the closed
two-element supported set fails with the invalid-auth-mode error before any
storage call is made (its trace is empty), and the two supported modes
select the corresponding credential-provider constructors. -/
theorem auth_mode_gate :
    (∀ v bucket region env art lp fs,
      Load ⟨.other v, bucket, region⟩ env art lp =
        (.error (invalidAuthModeErr (.other v)), [])
      ∧ Save ⟨.other v, bucket, region⟩ env fs lp art =
        (.error (invalidAuthModeErr (.other v)), [])
      ∧ Delete ⟨.other v, bucket, region⟩ env art =
        (.error (invalidAuthModeErr (.other v)), [], env.store)
      ∧ ListObjects ⟨.other v, bucket, region⟩ env art =
        (.error (invalidAuthModeErr (.other v)), [])
      ∧ IsDirectory ⟨.other v, bucket, region⟩ env art =
        (.error (invalidAuthModeErr (.other v)), [])
      ∧ OpenStream ⟨.other v, bucket, region⟩ env art =
        (.error (invalidAuthModeErr (.other v)), []))
    ∧ (∀ bucket region,
        newAuthProvider ⟨.workloadPrincipals, bucket, region⟩ = .ok .okeWorkloadIdentity)
    ∧ (∀ bucket region,
        newAuthProvider ⟨.instancePrincipals, bucket, region⟩ = .ok .instancePrincipal) :=
  ⟨fun _ _ _ _ _ _ _ => ⟨rfl, rfl, rfl, rfl, rfl, rfl⟩, fun _ _ => rfl, fun _ _ => rfl⟩

/-- C8: when client construction succeeds and namespace resolution fails,
every public operation returns exactly the namespace-resolution error, and
the namespace call is its only storage call: no later storage call is made
at all, in particular none carrying an empty namespace. -/
theorem namespace_failure_aborts (ad : ArtifactDriver) (env : Env)
    (p : ConfigProvider) (hc : newOracleCloudClient ad env = .ok p)
    (e : Err) (hns : env.nsResult = .error e) :
    (∀ art lp, Load ad env art lp = (.error e, [Call.getNamespace]))
    ∧ (∀ fs lp art, Save ad env fs lp art = (.error e, [Call.getNamespace]))
    ∧ (∀ art, Delete ad env art = (.error e, [Call.getNamespace], env.store))
    ∧ (∀ art, ListObjects ad env art = (.error e, [Call.getNamespace]))
    ∧ (∀ art, IsDirectory ad env art = (.error e, [Call.getNamespace]))
    ∧ (∀ art, OpenStream ad env art = (.error e, [Call.getNamespace])) := by
  refine ⟨fun art lp => ?_, fun fs lp art => ?_, fun art => ?_,
    fun art => ?_, fun art => ?_, fun art => ?_⟩
  all_goals simp [Load, Save, Delete, ListObjects, IsDirectory, OpenStream, hc, hns]

/-- C8 witness: a concrete environment whose namespace resolution fails
makes `Load` and `OpenStream` return that error after the namespace call
alone. -/
theorem namespace_failure_aborts_witness :
    Load wDriver ⟨wStore, onePagePaging wStore, none, .error ⟨"E1", "ns down"⟩,
        fun _ => none⟩ wArt "/t" = (.error ⟨"E1", "ns down"⟩, [Call.getNamespace])
    ∧ OpenStream wDriver ⟨wStore, onePagePaging wStore, none, .error ⟨"E1", "ns down"⟩,
        fun _ => none⟩ wArt = (.error ⟨"E1", "ns down"⟩, [Call.getNamespace]) := by
  have h := namespace_failure_aborts wDriver
    ⟨wStore, onePagePaging wStore, none, .error ⟨"E1", "ns down"⟩, fun _ => none⟩
    .okeWorkloadIdentity rfl ⟨"E1", "ns down"⟩ rfl
  exact ⟨h.1 wArt "/t", h.2.2.2.2.2 wArt⟩

/-- C2: the save/load round trip does not preserve relative file paths.
Saving the directory `work` holding the single file `work/output.txt` (bytes
`hello`) under key `runs/42` uploads to the object name
`runs/42/work/output.txt` — `uploadDir` joins the key with the whole walk
path, source directory included, instead of the path relative to the walk
root — and loading key `runs/42` into `/tmp/y` then writes
`/tmp/y/work/output.txt`: the file reappears at relative path
`work/output.txt` where the round-trip law requires `output.txt`. -/
theorem save_load_roundtrip_code_bug :
    (Save wDriver (healthyEnv []) [("work/output.txt", "hello")] "work"
      ⟨"out", ⟨"runs/42"⟩⟩).1 = .ok [("runs/42/work/output.txt", "hello")]
    ∧ (Load wDriver (healthyEnv (applyPuts [] [("runs/42/work/output.txt", "hello")]))
        ⟨"out", ⟨"runs/42"⟩⟩ "/tmp/y").1 = .ok [("/tmp/y/work/output.txt", "hello")]
    ∧ trimPrefix "work/output.txt" ("work" ++ "/") = "output.txt"
    ∧ trimPrefix "/tmp/y/work/output.txt" ("/tmp/y" ++ "/") = "work/output.txt"
    ∧ ("work/output.txt" : String) ≠ "output.txt" :=
  ⟨by decide, by decide, by decide, by decide, by decide⟩

end OracleCloud
